import Mathlib

/-!
Shallow embedding of the node-connection and patch-synchronization core of the
radicle-vscode-extension repository, together with proofs about the properties
its specification states.

Modelling conventions:
- TypeScript objects become Lean structures; JS `undefined` becomes `Option`.
- JS object identity matters for the patch cache (`Object.assign` keeps the
  same object reference), so cache entries carry an explicit `ref : Nat`
  identity token; a fresh token is drawn from a `nextRef` counter whenever the
  code allocates a fresh object, and `Object.assign` keeps the token.
- `Result<T> = XOR<{data: T}, {error}>` values (and the plain object literals
  the code actually returns) are modelled as `RawResult` with two optional
  fields, so that non-exclusive values such as `{}` are representable.
- JS numbers used as timestamps are modelled as `Int`.
- The single `await` suspension point of `fetchAllPatches` is modelled by
  splitting the function into a pre-await and a post-await phase, which lets
  interleavings of two concurrent invocations be expressed explicitly.
- `Array.prototype.sort` (a stable comparison sort) is modelled by a
  structural insertion sort `sortByJs`; `String.prototype.localeCompare` with
  the default locale is modelled as code-point lexicographic order on strings.
-/

/-- A JavaScript `Error` value; only the message is relevant here. -/
structure JsError where
  message : String
deriving DecidableEq, Repr

/-- Model of a value flowing where the code uses `Result<T>` (src/types/node.ts:
`XOR<{data: T}, {error: Error}>`). Both fields are optional so that the plain
`{}` object literal that `refetchPatch` returns on success is representable. -/
structure RawResult (α : Type) where
  data : Option α := none
  error : Option JsError := none
deriving DecidableEq, Repr

/-- The exclusivity property promised for `Result<T>`: exactly one of the two
fields is set. -/
def RawResult.isExclusive (r : RawResult α) : Bool :=
  (r.data.isSome && r.error.isNone) || (r.data.isNone && r.error.isSome)

/-- JS truthiness of an optional string (`undefined` and `''` are falsy). -/
def jsTruthyOptStr : Option String → Bool
  | none => false
  | some s => !(s == "")

/-- A patch revision (src/types: timestamp, author, description, base and head
commit oids). -/
structure Revision where
  timestamp : Int
  author : String
  description : String
  base : String
  oid : String
deriving DecidableEq, Repr

/-- The nested `state` object of a patch; `status` is one of the four wire
strings draft/open/archived/merged. -/
structure PatchState where
  status : String
deriving DecidableEq, Repr

/-- A patch record as both backends produce it. -/
structure Patch where
  id : String
  title : String
  author : String
  labels : List String
  state : PatchState
  revisions : List Revision
deriving DecidableEq, Repr

/-- `AugmentedPatch`: a patch plus the client-side `lastFetchedTs` freshness
stamp (`{ ...fetchedPatch, ...{ lastFetchedTs: nowTs } }`). -/
structure AugmentedPatch where
  toPatch : Patch
  lastFetchedTs : Int
deriving DecidableEq, Repr

/-- A project record (only the identity is relevant to the claims). -/
structure Project where
  id : String
  name : String
deriving DecidableEq, Repr

/-- `needle.isPrefixOf`-style containment scan over character lists, the
semantics of JS `String.prototype.includes`. -/
def jsIncludesAux (needle : List Char) : List Char → Bool
  | [] => needle.isEmpty
  | c :: rest => needle.isPrefixOf (c :: rest) || jsIncludesAux needle rest

/-- JS `hay.includes(needle)`: substring containment. -/
def jsIncludes (hay needle : String) : Bool :=
  jsIncludesAux needle.toList hay.toList

/-- One slot of the patch cache: the object-identity token plus the current
`AugmentedPatch` value stored in that object. -/
structure CacheEntry where
  ref : Nat
  val : AugmentedPatch
deriving DecidableEq, Repr

/-- The mutable state owned by the patch store (src/stores/patchStore.ts):
`patches` (undefined until first load), `lastFetchedTs`, the in-flight request
handle (here just its presence), the previous checked-out patch kept by the
`computed`, and the allocator for fresh object-identity tokens. -/
structure StoreState where
  patches : Option (List CacheEntry) := none
  lastFetchedTs : Option Int := none
  inProgress : Bool := false
  prevCheckedOutPatch : Option CacheEntry := none
  nextRef : Nat := 0
deriving DecidableEq, Repr

/-- `findPatchById(partialOrWholeId)` (patchStore.ts:72-76):
`patches.value?.find((patch) => patch.id.includes(partialOrWholeId))`. -/
def findPatchById (patches : Option (List CacheEntry)) (partialOrWholeId : String) :
    Option CacheEntry :=
  match patches with
  | none => none
  | some l => l.find? (fun e => jsIncludes e.val.toPatch.id partialOrWholeId)

/-- Replace the first element satisfying `p` by its image under `f`; this is
how mutating the object returned by `Array.prototype.find` acts on the list. -/
def updateFirst (p : α → Bool) (f : α → α) : List α → List α
  | [] => []
  | x :: xs => if p x then f x :: xs else x :: updateFirst p f xs

/-- `refetchPatch(patchId)` (patchStore.ts:45-70). Inputs: the store state, the
`getCurrentProjectId()` result, `Date.now()/1000`, and the `fetchPatch` result.
Returns `none` for the JS `TypeError` that would occur if the fetch result had
neither `data` nor `error` (reading `.id` of `undefined`); otherwise the new
state and the returned object, which is `{error}` on the failure paths and the
empty object `{}` (no `data`, no `error`) on the success path. -/
def refetchPatch (s : StoreState) (ridRes : RawResult String) (nowTs : Int)
    (fetchRes : RawResult Patch) : Option (StoreState × RawResult Unit) :=
  if jsTruthyOptStr ridRes.data = false then
    some (s, { error := some ⟨"Failed resolving RID"⟩ })
  else
    match fetchRes.error with
    | some e => some (s, { error := some e })
    | none =>
      match fetchRes.data with
      | none => none
      | some fetchedPatch =>
        let augmentedFetchedPatch : AugmentedPatch := ⟨fetchedPatch, nowTs⟩
        match findPatchById s.patches fetchedPatch.id with
        | some _ =>
          some ({ s with
                  patches := s.patches.map
                    (updateFirst (fun e => jsIncludes e.val.toPatch.id fetchedPatch.id)
                      (fun e => ⟨e.ref, augmentedFetchedPatch⟩)) },
                {})
        | none =>
          some ({ s with
                  patches := some ((s.patches.getD []) ++ [⟨s.nextRef, augmentedFetchedPatch⟩]),
                  nextRef := s.nextRef + 1 },
                {})

/-- Does some per-status response of the batch carry an error?
(`responses.map((r) => r.error).filter(Boolean).length`). -/
def batchHasError (batch : List (RawResult (List Patch))) : Bool :=
  batch.any (fun r => r.error.isSome)

/-- `responses.flatMap((r) => r.data).filter(Boolean)` followed by stamping
each fetched patch with the fetch timestamp. -/
def stampPatches (nowTs : Int) (batch : List (RawResult (List Patch))) :
    List AugmentedPatch :=
  ((batch.map (fun r => r.data.getD [])).flatten).map (fun p => ⟨p, nowTs⟩)

/-- Allocate consecutive fresh identity tokens for a freshly built list of
augmented patches. -/
def assignRefs : Nat → List AugmentedPatch → List CacheEntry
  | _, [] => []
  | n, a :: as => ⟨n, a⟩ :: assignRefs (n + 1) as

/-- The synchronous prefix of `fetchAllPatches()` (patchStore.ts:80-97), up to
its single `await`. Returns `some b` when the invocation completes without
processing a batch itself (the coalesced path returns `true` once the in-flight
request settles; the unresolved-project path returns `false`), and `none` when
it has issued the batch, recorded the in-flight handle and suspended. -/
def fetchAllPatchesPre (s : StoreState) (rid : Option String) (nowTs : Int) :
    StoreState × Option Bool :=
  if s.inProgress then (s, some true)
  else if jsTruthyOptStr rid = false then (s, some false)
  else ({ s with lastFetchedTs := some nowTs, inProgress := true }, none)

/-- The continuation of `fetchAllPatches()` after its `await`
(patchStore.ts:95-111): the `finally` clears the in-flight handle; any
per-status error aborts with `false`; otherwise the collection is replaced
wholesale by the stamped fetched patches and `true` is returned. -/
def fetchAllPatchesPost (s : StoreState) (nowTs : Int)
    (batch : List (RawResult (List Patch))) : StoreState × Bool :=
  let s1 := { s with inProgress := false }
  if batchHasError batch then (s1, false)
  else
    let fetchedPatches := stampPatches nowTs batch
    ({ s1 with
       patches := some (assignRefs s1.nextRef fetchedPatches),
       nextRef := s1.nextRef + fetchedPatches.length },
     true)

/-- One uninterleaved invocation of `fetchAllPatches()`. The final `Nat` counts
how many batches of requests this invocation sent to the backend adapter. -/
def fetchAllPatches (s : StoreState) (rid : Option String) (nowTs : Int)
    (batch : List (RawResult (List Patch))) : StoreState × Bool × Nat :=
  let pre := fetchAllPatchesPre s rid nowTs
  match pre.2 with
  | some b => (pre.1, b, 0)
  | none =>
    let post := fetchAllPatchesPost pre.1 nowTs batch
    (post.1, post.2, 1)

/-- Two invocations of `fetchAllPatches()` where the second starts while the
first is suspended at its `await` (the event-loop interleaving of the
"concurrent callers" scenario). Result: final state, first caller's boolean,
second caller's boolean, and the number of batches the backend received. -/
def twoConcurrentFetchAllPatches (s : StoreState) (rid : Option String)
    (ts1 ts2 : Int) (batch : List (RawResult (List Patch))) :
    StoreState × Bool × Bool × Nat :=
  let pre1 := fetchAllPatchesPre s rid ts1
  match pre1.2 with
  | some b1 =>
    let r2 := fetchAllPatches pre1.1 rid ts2 batch
    (r2.1, b1, r2.2.1, r2.2.2)
  | none =>
    let pre2 := fetchAllPatchesPre pre1.1 rid ts2
    match pre2.2 with
    | some b2 =>
      let post1 := fetchAllPatchesPost pre2.1 ts1 batch
      (post1.1, post1.2, b2, 1)
    | none =>
      let post1 := fetchAllPatchesPost pre2.1 ts1 batch
      let post2 := fetchAllPatchesPost post1.1 ts2 batch
      (post2.1, post1.2, post2.2, 2)

/-- The character class `[0-9A-Fa-f]` of the checked-out-patch regex. -/
def isHexChar (c : Char) : Bool :=
  (decide ('0' ≤ c) && decide (c ≤ '9')) ||
  (decide ('a' ≤ c) && decide (c ≤ 'f')) ||
  (decide ('A' ≤ c) && decide (c ≤ 'F'))

/-- The literal `patch/` of the regex `/patch\/([0-9A-Fa-f]*)/`. -/
def patchSeg : List Char := ['p', 'a', 't', 'c', 'h', '/']

/-- Leftmost match of `/patch\/([0-9A-Fa-f]*)/`: at the first occurrence of
`patch/`, capture the (possibly empty) greedy run of hex characters. -/
def matchPatchHexAux : List Char → Option (List Char)
  | [] => none
  | c :: cs =>
    if patchSeg.isPrefixOf (c :: cs) then
      some (((c :: cs).drop patchSeg.length).takeWhile isHexChar)
    else matchPatchHexAux cs

/-- `branchName.match(/patch\/([0-9A-Fa-f]*)/)?.[1]`. -/
def extractPatchPartialId (branch : String) : Option String :=
  (matchPatchHexAux branch.toList).map (fun l => String.mk l)

/-- The value computed by the `checkedOutPatch` computed property
(patchStore.ts:22-34): extract the hex fragment after `patch/` from the current
branch; an absent match or an empty (falsy) fragment yields `undefined`,
otherwise the fragment is resolved through `findPatchById`. -/
def checkedOutPatchVal (patches : Option (List CacheEntry))
    (currentBranch : Option String) : Option CacheEntry :=
  match currentBranch with
  | none => none
  | some b =>
    match extractPatchPartialId b with
    | none => none
    | some frag => if frag == "" then none else findPatchById patches frag

/-- One recomputation step of the `computed`: it writes the previous value into
`prevCheckedOutPatch` and produces the new derived value; the `patches` cache
itself is only read. -/
def checkedOutPatchStep (s : StoreState) (prevVal : Option CacheEntry)
    (currentBranch : Option String) : StoreState × Option CacheEntry :=
  ({ s with prevCheckedOutPatch := prevVal }, checkedOutPatchVal s.patches currentBranch)

/-- `resetAllPatches()` (patchStore.ts:41-43). -/
def resetAllPatches (s : StoreState) : StoreState :=
  { s with patches := none }

namespace NAPINode

/-- `NAPINode.validate` (napiNodeConnection.ts:8-10). -/
def validate (_minimizeUserNotifications : Bool) : Bool := true

/-- `NAPINode.getProject`: wraps the native binding's record in `{data}`.
The binding call itself is external; its record is a parameter. -/
def getProject (projectData : Project) : RawResult Project :=
  { data := some projectData }

/-- `NAPINode.fetchPatch`: wraps the native binding's record in `{data}`. -/
def fetchPatch (patchData : Patch) : RawResult Patch :=
  { data := some patchData }

/-- `NAPINode.fetchAllPatches`: one-element array holding `{data}`. -/
def fetchAllPatches (patchesData : List Patch) : List (RawResult (List Patch)) :=
  [{ data := some patchesData }]

/-- `NAPINode.getCurrentProjectId`: wraps the binding's rid in `{data}`. -/
def getCurrentProjectId (ridData : String) : RawResult String :=
  { data := some ridData }

/-- `NAPINode.getAllProjects`: wraps the binding's records in `{data}`. -/
def getAllProjects (projectsData : List Project) : RawResult (List Project) :=
  { data := some projectsData }

end NAPINode

namespace ClassicNode

/-- `ClassicNode.getProject` forwards the `fetchFromHttpd` result unchanged.
`fetchFromHttpd` lives in src/helpers outside the provided sources; its
response is a parameter here. -/
def getProject (httpdRes : RawResult Project) : RawResult Project := httpdRes

/-- `ClassicNode.fetchPatch` forwards the `fetchFromHttpd` result unchanged. -/
def fetchPatch (httpdRes : RawResult Patch) : RawResult Patch := httpdRes

/-- `ClassicNode.getAllProjects` forwards the `fetchFromHttpd` result. -/
def getAllProjects (httpdRes : RawResult (List Project)) : RawResult (List Project) :=
  httpdRes

/-- `ClassicNode.fetchAllPatches` gathers the four per-status requests
(draft, open, archived, merged) into one array of independent results. -/
def fetchAllPatches (draftRes openRes archivedRes mergedRes : RawResult (List Patch)) :
    List (RawResult (List Patch)) :=
  [draftRes, openRes, archivedRes, mergedRes]

/-- `ClassicNode.getCurrentProjectId` (types/node.ts part: lines 50-57): a
falsy memoized id becomes `{error}`, otherwise `{data}`. -/
def getCurrentProjectId (memo : Option String) : RawResult String :=
  if jsTruthyOptStr memo = false then
    { error := some ⟨"failed to get current project id"⟩ }
  else { data := memo }

end ClassicNode

/-- `getConfig` (helpers/config.ts:22-34) applied to a key. The recognised keys
return the configured value trimmed; any other key falls into the `default`
branch, which calls `assertUnreachable`. `assertUnreachable` is declared in
src/utils outside the provided sources, but its call sites only type-check
because its return type is `never`, so it cannot return a value; it is
modelled as the `Except.error` case. -/
def getConfig (cfg : String → Option String) (configKey : String) :
    Except Unit (Option String) :=
  if configKey == "radicle.advanced.pathToRadBinary"
      || configKey == "radicle.advanced.pathToNodeHome" then
    Except.ok ((cfg configKey).map String.trim)
  else Except.error ()

/-- Which backend adapter class got instantiated. -/
inductive AdapterKind where
  | napiNode
  | classicNode
deriving DecidableEq, Repr

/-- `getNodeConnection()` (utils/nodeConnection.ts:8-18): return the memoized
instance if present; otherwise read `getConfig('radicle.advanced.useNodeApi')`
and construct the matching adapter. Result: the returned adapter and the new
module-level `nodeConnection` memo, or `Except.error` if `getConfig` never
returns. -/
def getNodeConnection (cfg : String → Option String)
    (nodeConnection : Option AdapterKind) :
    Except Unit (AdapterKind × Option AdapterKind) :=
  match nodeConnection with
  | some c => Except.ok (c, some c)
  | none =>
    match getConfig cfg "radicle.advanced.useNodeApi" with
    | Except.error e => Except.error e
    | Except.ok v =>
      let conn := if jsTruthyOptStr v then AdapterKind.napiNode
                  else AdapterKind.classicNode
      Except.ok (conn, some conn)

/-- Stable insertion of `x` into a list, placing it after every element `y`
with `le y x`; building block of the model of `Array.prototype.sort`. -/
def insertSorted (le : α → α → Bool) (x : α) : List α → List α
  | [] => [x]
  | y :: ys => if le y x then y :: insertSorted le x ys else x :: y :: ys

/-- Model of `Array.prototype.sort(cmp)` for a consistent comparator: a
structural insertion sort producing an ascending reordering. -/
def sortByJs (le : α → α → Bool) : List α → List α
  | [] => []
  | x :: xs => insertSorted le x (sortByJs le xs)

/-- The comparator `(p1, p2) => p1.timestamp - p2.timestamp` as a boolean
ordering on revisions. -/
def revLe (r1 r2 : Revision) : Bool :=
  decide (r1.timestamp ≤ r2.timestamp)

/-- `getFirstAndLatestRevisions` (ux/patches.ts:439-453): sort a copy of the
revisions ascending by timestamp; first = index 0, latest = last index. `none`
models the `undefined`s the code casts away when a patch has no revisions. -/
def getFirstAndLatestRevisions (patch : Patch) : Option (Revision × Revision) :=
  match sortByJs revLe patch.revisions with
  | [] => none
  | r :: rs => some (r, rs.getLastD r)

/-- Split a character list on `/` separators (the path components). -/
def splitOnSlashAux (acc : List Char) : List Char → List (List Char)
  | [] => [acc.reverse]
  | c :: cs =>
    if c = '/' then acc.reverse :: splitOnSlashAux [] cs
    else splitOnSlashAux (c :: acc) cs

/-- `Path.basename` for the `/`-separated paths of the diff payload. -/
def basenameJs (path : String) : String :=
  String.mk ((splitOnSlashAux [] path.toList).getLastD path.toList)

/-- `Path.dirname` for the `/`-separated paths of the diff payload. -/
def dirnameJs (path : String) : String :=
  let parts := splitOnSlashAux [] path.toList
  if parts.length ≤ 1 then "."
  else String.mk (List.intercalate ['/'] parts.dropLast)

/-- The data of one projected file-change node that the claims are about: its
full resolved path, its bare filename, and whether
`enableShowingPathInDescription()` was called so the tree item's description
shows the containing directory. -/
structure FilechangeNode where
  resolvedPath : String
  filename : String
  showPath : Bool
deriving DecidableEq, Repr

/-- The nodes built from one diff response, in construction order
(ux/patches.ts:181-334): added, deleted and modified changes keyed by `path`,
then copied and moved changes keyed by `newPath`, each with
`filename = Path.basename(...)` and the description initially hidden. -/
def mkFilechangeNodesBase (added deleted modified : List String)
    (copied moved : List (String × String)) : List FilechangeNode :=
  ((added ++ deleted ++ modified).map (fun p => ⟨p, basenameJs p, false⟩))
    ++ ((copied ++ moved).map (fun pq => ⟨pq.2, basenameJs pq.2, false⟩))

/-- The disambiguation pass (ux/patches.ts:335-346): for the node at each
position, `nodes.filter((node) => node !== filechangeNode)` removes exactly
that object, and the node enables showing its path iff some remaining node has
the same filename. `before` holds the already-visited nodes. -/
def markDupAux (before : List FilechangeNode) :
    List FilechangeNode → List FilechangeNode
  | [] => []
  | n :: after =>
    { n with showPath := (before ++ after).any (fun m => m.filename == n.filename) }
      :: markDupAux (n :: before) after

/-- The disambiguation pass over the whole result set. -/
def markDup (nodes : List FilechangeNode) : List FilechangeNode :=
  markDupAux [] nodes

/-- Code-point lexicographic comparison of character lists. -/
def charListLe : List Char → List Char → Bool
  | [], _ => true
  | _ :: _, [] => false
  | a :: as, b :: bs =>
    if a.toNat = b.toNat then charListLe as bs else decide (a.toNat < b.toNat)

/-- Code-point lexicographic comparison of strings. -/
def pathLe (s1 s2 : String) : Bool :=
  charListLe s1.toList s2.toList

/-- The comparator `(n1, n2) => n1.resolvedPath.localeCompare(n2.resolvedPath)`
with the default locale, modelled as code-point lexicographic order. -/
def nodeLe (n1 n2 : FilechangeNode) : Bool :=
  pathLe n1.resolvedPath n2.resolvedPath

/-- The full projection of one diff's file-change list
(ux/patches.ts:181-347): build the nodes, run the filename-disambiguation pass
over the full result set, then sort by full resolved path. -/
def projectFilechangeNodes (added deleted modified : List String)
    (copied moved : List (String × String)) : List FilechangeNode :=
  sortByJs nodeLe (markDup (mkFilechangeNodesBase added deleted modified copied moved))

/-- A minimal concrete patch used in concrete instantiations. -/
def samplePatch (i : String) : Patch :=
  ⟨i, "title", "alias", [], ⟨"open"⟩, []⟩

/-- A concrete cache entry holding `samplePatch i` under identity token `r`. -/
def sampleEntry (r : Nat) (i : String) : CacheEntry :=
  ⟨r, ⟨samplePatch i, 0⟩⟩

/-- A concrete revision with the given timestamp and author. -/
def sampleRevision (ts : Int) (a : String) : Revision :=
  ⟨ts, a, "desc", "base", "oid"⟩

/-- A concrete project record. -/
def sampleProject : Project := ⟨"rad:z123", "proj"⟩

/-- A cache whose ids are distinct but where one id (`a`) is a strict substring
of another (`xax`): the input exhibiting the substring-containment behavior of
`findPatchById`-based merging. -/
def substringTrapStore : StoreState :=
  { patches := some [sampleEntry 0 "xax", sampleEntry 1 "a"], nextRef := 2 }

/-- A batch response whose single per-status result carries an error. -/
def errorBatch : List (RawResult (List Patch)) := [{ error := some ⟨"boom"⟩ }]

/-- A batch response whose single per-status result succeeded. -/
def okBatch : List (RawResult (List Patch)) := [{ data := some [samplePatch "z"] }]

/-- A concrete patch with three revisions stored out of timestamp order
(timestamps 100, 300, 200). -/
def threeRevisionPatch : Patch :=
  { samplePatch "p6" with
    revisions := [sampleRevision 100 "x", sampleRevision 300 "y", sampleRevision 200 "z"] }

theorem isPrefixOf_self (l : List Char) : l.isPrefixOf l = true := by
  induction l with
  | nil => rfl
  | cons c cs ih => simp [List.isPrefixOf, ih]

theorem jsIncludesAux_of_isPrefixOf {needle hay : List Char}
    (h : needle.isPrefixOf hay = true) : jsIncludesAux needle hay = true := by
  cases hay with
  | nil =>
    cases needle with
    | nil => rfl
    | cons c cs => simp [List.isPrefixOf] at h
  | cons c cs => simp [jsIncludesAux, h]

theorem jsIncludes_self (s : String) : jsIncludes s s = true :=
  jsIncludesAux_of_isPrefixOf (isPrefixOf_self s.toList)

theorem jsIncludes_empty_needle (s : String) : jsIncludes s "" = true := by
  unfold jsIncludes
  cases s.toList with
  | nil => rfl
  | cons c cs => simp [jsIncludesAux, List.isPrefixOf]

/-- C5: the claim says the first `getNodeConnection()` call reads the
`radicle.advanced.useNodeApi` flag and constructs the matching adapter, but
that key is not in `ExtensionConfig`, so `getConfig`'s switch reaches
`assertUnreachable` and the first call never returns an adapter at all — under
any configuration. Subsequent-call memoization behaves as described. -/
theorem getNodeConnection_first_call_never_constructs :
    ∀ cfg : String → Option String,
      getNodeConnection cfg none = Except.error () ∧
      ∀ c : AdapterKind, getNodeConnection cfg (some c) = Except.ok (c, some c) := by
  intro cfg
  exact ⟨rfl, fun c => rfl⟩

/-- C9: `findPatchById` returns `undefined` for every query while the cache is
uninitialized; and on a non-empty cache the empty-string query returns the
first patch of the collection, because substring containment accepts the empty
needle for every id. -/
theorem findPatchById_none_cache_and_empty_query :
    (∀ q : String, findPatchById none q = none) ∧
    (∀ l : List CacheEntry, l ≠ [] → findPatchById (some l) "" = l.head?) := by
  constructor
  · intro q; rfl
  · intro l hl
    cases l with
    | nil => exact absurd rfl hl
    | cons e es =>
      have h := jsIncludes_empty_needle e.val.toPatch.id
      simp [findPatchById, List.find?_cons, h]

/-- C9 witness: the empty-query behavior evaluated on a concrete one-entry
cache. -/
theorem findPatchById_none_cache_and_empty_query_witness :
    [sampleEntry 0 "ab"] ≠ ([] : List CacheEntry) ∧
    findPatchById (some [sampleEntry 0 "ab"]) "" = [sampleEntry 0 "ab"].head? :=
  ⟨by decide,
   findPatchById_none_cache_and_empty_query.2 [sampleEntry 0 "ab"] (by decide)⟩

/-- C2 counterexample: on its success path `refetchPatch` returns the plain
object `{}` — a value with neither `data` nor `error` set — so the returned
value is not exclusive, refuting the claim at a concrete input (empty store,
resolvable rid, successful fetch of `samplePatch "aa"`). -/
theorem refetchPatch_success_not_exclusive :
    (refetchPatch {} { data := some "rad:x" } 5
        { data := some (samplePatch "aa") }).map
      (fun r => r.2.isExclusive) = some false := by
  decide

/-- C2 (amended): every Connection Interface operation returns an exclusive
`Result` (the wire operations forward `fetchFromHttpd` responses, so
exclusivity is inherited from them), and `refetchPatch` returns error-only
values on its two failure paths — but its success path returns the empty
object with neither field set, and it never sets `data` at all. -/
theorem result_exclusivity_amended :
    (∀ p, (NAPINode.fetchPatch p).isExclusive = true) ∧
    (∀ pr, (NAPINode.getProject pr).isExclusive = true) ∧
    (∀ ps, ∀ r ∈ NAPINode.fetchAllPatches ps, r.isExclusive = true) ∧
    (∀ rid, (NAPINode.getCurrentProjectId rid).isExclusive = true) ∧
    (∀ prs, (NAPINode.getAllProjects prs).isExclusive = true) ∧
    (∀ memo, (ClassicNode.getCurrentProjectId memo).isExclusive = true) ∧
    (∀ hr : RawResult Project, hr.isExclusive = true →
      (ClassicNode.getProject hr).isExclusive = true) ∧
    (∀ hr : RawResult Patch, hr.isExclusive = true →
      (ClassicNode.fetchPatch hr).isExclusive = true) ∧
    (∀ hr : RawResult (List Project), hr.isExclusive = true →
      (ClassicNode.getAllProjects hr).isExclusive = true) ∧
    (∀ a b c d : RawResult (List Patch),
      a.isExclusive = true → b.isExclusive = true →
      c.isExclusive = true → d.isExclusive = true →
      ∀ r ∈ ClassicNode.fetchAllPatches a b c d, r.isExclusive = true) ∧
    (∀ s ridRes nowTs fetchRes st,
      refetchPatch s ridRes nowTs fetchRes = some st →
      st.2.data = none ∧
        (st.2.error = none ↔ st.2 = ({} : RawResult Unit))) ∧
    (∀ (s : StoreState) (rid : String) (nowTs : Int) (p : Patch),
      jsTruthyOptStr (some rid) = true →
      ∃ s1, refetchPatch s { data := some rid } nowTs { data := some p } =
        some (s1, ({} : RawResult Unit))) := by
  refine ⟨fun p => rfl, fun pr => rfl, ?_, fun rid => rfl, fun prs => rfl, ?_,
    fun hr h => h, fun hr h => h, fun hr h => h, ?_, ?_, ?_⟩
  · intro ps r hr
    simp only [NAPINode.fetchAllPatches, List.mem_singleton] at hr
    subst hr; rfl
  · intro memo
    unfold ClassicNode.getCurrentProjectId
    match memo with
    | none => rfl
    | some m =>
      by_cases hm : m = ""
      · subst hm; rfl
      · have : jsTruthyOptStr (some m) = true := by
          simp [jsTruthyOptStr, hm]
        rw [this]
        simp [RawResult.isExclusive]
  · intro a b c d ha hb hc hd r hr
    simp only [ClassicNode.fetchAllPatches, List.mem_cons, List.not_mem_nil,
      or_false] at hr
    rcases hr with rfl | rfl | rfl | rfl
    · exact ha
    · exact hb
    · exact hc
    · exact hd
  · intro s ridRes nowTs fetchRes st h
    unfold refetchPatch at h
    split at h
    · cases h; exact ⟨rfl, by simp⟩
    · split at h
      · cases h; exact ⟨rfl, by simp⟩
      · split at h
        · exact Option.noConfusion h
        · split at h
          · cases h; exact ⟨rfl, by simp⟩
          · cases h; exact ⟨rfl, by simp⟩
  · intro s rid nowTs p hrid
    unfold refetchPatch
    simp only [hrid]
    match hf : findPatchById s.patches p.id with
    | some e0 => exact ⟨_, rfl⟩
    | none => exact ⟨_, rfl⟩

/-- C2 witness: the amended statement instantiated at concrete inputs — an
exclusive httpd response passes through `ClassicNode.getProject` exclusively,
and a concrete successful `refetchPatch` returns the empty object. -/
theorem result_exclusivity_amended_witness :
    (RawResult.isExclusive { data := some sampleProject } = true) ∧
    (ClassicNode.getProject { data := some sampleProject }).isExclusive = true ∧
    jsTruthyOptStr (some "rad:x") = true ∧
    ∃ s1, refetchPatch {} { data := some "rad:x" } 5
        { data := some (samplePatch "aa") } = some (s1, ({} : RawResult Unit)) :=
  ⟨by decide,
   result_exclusivity_amended.2.2.2.2.2.2.1 { data := some sampleProject } (by decide),
   by decide,
   result_exclusivity_amended.2.2.2.2.2.2.2.2.2.2.2 {} "rad:x" 5 (samplePatch "aa")
     (by decide)⟩

/-- C1 counterexample: with an in-flight fetch whose batch fails, the backend
receives exactly one batch, but the first caller resolves to `false` while the
coalesced caller resolves to `true` — the two callers do not receive the same
outcome, refuting the claim at a concrete input. -/
theorem fetch_coalescing_divergent_outcomes :
    (twoConcurrentFetchAllPatches {} (some "rad:x") 1 2 errorBatch).2.2.2 = 1 ∧
    (twoConcurrentFetchAllPatches {} (some "rad:x") 1 2 errorBatch).2.1 = false ∧
    (twoConcurrentFetchAllPatches {} (some "rad:x") 1 2 errorBatch).2.2.1 = true ∧
    ¬((twoConcurrentFetchAllPatches {} (some "rad:x") 1 2 errorBatch).2.2.1 =
        (twoConcurrentFetchAllPatches {} (some "rad:x") 1 2 errorBatch).2.1) := by
  decide

/-- C1 (amended): when a second `fetchAllPatches()` invocation starts while the
first one's fetch is in flight, the backend adapter receives exactly one batch
of requests; but the coalesced caller merely awaits the in-flight promise and
then returns `true` unconditionally, so the two callers receive the same
result only when the batch succeeds — the first caller's result is `true` iff
no per-status response carries an error. -/
theorem fetch_coalescing_amended :
    ∀ (s : StoreState) (rid : Option String) (ts1 ts2 : Int) batch,
      s.inProgress = false → jsTruthyOptStr rid = true →
      (twoConcurrentFetchAllPatches s rid ts1 ts2 batch).2.2.2 = 1 ∧
      (twoConcurrentFetchAllPatches s rid ts1 ts2 batch).2.2.1 = true ∧
      ((twoConcurrentFetchAllPatches s rid ts1 ts2 batch).2.1 = true ↔
        batchHasError batch = false) := by
  intro s rid ts1 ts2 batch h1 h2
  unfold twoConcurrentFetchAllPatches
  unfold fetchAllPatchesPre
  rw [h1, h2]
  simp only [Bool.false_eq_true, if_false, Bool.true_eq_false]
  unfold fetchAllPatchesPost
  cases hb : batchHasError batch <;> simp [hb]

/-- C1 witness: the amended statement instantiated with an idle store, a
resolvable project id and a successful one-result batch. -/
theorem fetch_coalescing_amended_witness :
    (({} : StoreState).inProgress = false) ∧
    jsTruthyOptStr (some "rad:x") = true ∧
    ((twoConcurrentFetchAllPatches {} (some "rad:x") 1 2 okBatch).2.2.2 = 1 ∧
      (twoConcurrentFetchAllPatches {} (some "rad:x") 1 2 okBatch).2.2.1 = true ∧
      ((twoConcurrentFetchAllPatches {} (some "rad:x") 1 2 okBatch).2.1 = true ↔
        batchHasError okBatch = false)) :=
  ⟨by decide, by decide,
   fetch_coalescing_amended {} (some "rad:x") 1 2 okBatch (by decide) (by decide)⟩

/-- C3: a non-coalesced `fetchAllPatches()` invocation that resolved a project
id aborts on any per-status error, returning `false` and leaving `patches`
exactly its pre-call value; when every per-status result is error-free it
returns `true` and replaces the whole collection with the fetched patches,
each stamped with the fetch timestamp (fresh identity tokens: the collection
is rebuilt, not merged). -/
theorem fetch_all_patches_atomic_batch :
    ∀ (s : StoreState) (rid : Option String) (ts : Int) batch,
      s.inProgress = false → jsTruthyOptStr rid = true →
      (batchHasError batch = true →
        (fetchAllPatches s rid ts batch).2.1 = false ∧
        (fetchAllPatches s rid ts batch).1.patches = s.patches) ∧
      (batchHasError batch = false →
        (fetchAllPatches s rid ts batch).2.1 = true ∧
        (fetchAllPatches s rid ts batch).1.patches =
          some (assignRefs s.nextRef (stampPatches ts batch))) := by
  intro s rid ts batch h1 h2
  unfold fetchAllPatches fetchAllPatchesPre fetchAllPatchesPost
  rw [h1, h2]
  simp only [Bool.false_eq_true, if_false, Bool.true_eq_false]
  cases hb : batchHasError batch <;> simp [hb]

/-- C3 witness: the atomic-batch statement instantiated with a concrete store
and a concrete failing batch (both branches' hypotheses are dischargeable; the
failing branch is exercised). -/
theorem fetch_all_patches_atomic_batch_witness :
    (substringTrapStore.inProgress = false) ∧
    jsTruthyOptStr (some "rad:x") = true ∧
    batchHasError errorBatch = true ∧
    (fetchAllPatches substringTrapStore (some "rad:x") 7 errorBatch).2.1 = false ∧
    (fetchAllPatches substringTrapStore (some "rad:x") 7 errorBatch).1.patches =
      substringTrapStore.patches :=
  ⟨by decide, by decide, by decide,
   ((fetch_all_patches_atomic_batch substringTrapStore (some "rad:x") 7 errorBatch
      (by decide) (by decide)).1 (by decide)).1,
   ((fetch_all_patches_atomic_batch substringTrapStore (some "rad:x") 7 errorBatch
      (by decide) (by decide)).1 (by decide)).2⟩

/-- C10: in a non-coalesced invocation, once the project id resolves,
`lastFetchedTs` is set to the invocation's start timestamp already in the
pre-await phase (i.e. before the batch is issued) and still holds that value
at the end regardless of the batch outcome; when project-id resolution fails,
`lastFetchedTs` is left unchanged and the invocation returns `false`. -/
theorem fetch_lastFetchedTs_frame :
    ∀ (s : StoreState) (rid : Option String) (ts : Int) batch,
      s.inProgress = false →
      (jsTruthyOptStr rid = true →
        (fetchAllPatchesPre s rid ts).1.lastFetchedTs = some ts ∧
        (fetchAllPatches s rid ts batch).1.lastFetchedTs = some ts) ∧
      (jsTruthyOptStr rid = false →
        (fetchAllPatches s rid ts batch).1.lastFetchedTs = s.lastFetchedTs ∧
        (fetchAllPatches s rid ts batch).2.1 = false) := by
  intro s rid ts batch h1
  constructor
  · intro h2
    unfold fetchAllPatches fetchAllPatchesPre fetchAllPatchesPost
    rw [h1, h2]
    simp only [Bool.false_eq_true, if_false, Bool.true_eq_false]
    cases hb : batchHasError batch <;> simp [hb]
  · intro h2
    unfold fetchAllPatches fetchAllPatchesPre
    rw [h1, h2]
    simp

/-- C10 witness: the frame statement instantiated with an idle store, a
resolvable id and a failing batch — `lastFetchedTs` is set even though the
batch fails. -/
theorem fetch_lastFetchedTs_frame_witness :
    (({} : StoreState).inProgress = false) ∧
    jsTruthyOptStr (some "rad:x") = true ∧
    (fetchAllPatchesPre {} (some "rad:x") 9).1.lastFetchedTs = some 9 ∧
    (fetchAllPatches {} (some "rad:x") 9 errorBatch).1.lastFetchedTs = some 9 :=
  ⟨by decide, by decide,
   ((fetch_lastFetchedTs_frame {} (some "rad:x") 9 errorBatch (by decide)).1
     (by decide)).1,
   ((fetch_lastFetchedTs_frame {} (some "rad:x") 9 errorBatch (by decide)).1
     (by decide)).2⟩

theorem updateFirst_map_ref (p : CacheEntry → Bool) (a : AugmentedPatch)
    (l : List CacheEntry) :
    (updateFirst p (fun e => ⟨e.ref, a⟩) l).map CacheEntry.ref = l.map CacheEntry.ref := by
  induction l with
  | nil => rfl
  | cons x xs ih =>
    by_cases hx : p x = true
    · simp [updateFirst, hx]
    · simp [updateFirst, hx, ih]

theorem find?_updateFirst (p : α → Bool) (f : α → α) (l : List α) (e : α)
    (hp : ∀ x, p x = true → p (f x) = true) (h : l.find? p = some e) :
    (updateFirst p f l).find? p = some (f e) := by
  induction l with
  | nil => simp at h
  | cons x xs ih =>
    by_cases hx : p x = true
    · rw [List.find?_cons_of_pos _ hx] at h
      cases h
      simp [updateFirst, hx, List.find?_cons_of_pos _ (hp _ hx)]
    · rw [List.find?_cons_of_neg _ hx] at h
      simp [updateFirst, hx, List.find?_cons_of_neg _ hx, ih h]

theorem updateFirst_idem (p : α → Bool) (f : α → α) (l : List α)
    (hp : ∀ x, p x = true → p (f x) = true) (hf : ∀ x, f (f x) = f x) :
    updateFirst p f (updateFirst p f l) = updateFirst p f l := by
  induction l with
  | nil => rfl
  | cons x xs ih =>
    by_cases hx : p x = true
    · simp [updateFirst, hx, hp _ hx, hf]
    · simp [updateFirst, hx, ih]

theorem updateFirst_of_find?_none (p : α → Bool) (f : α → α) (l : List α)
    (h : l.find? p = none) : updateFirst p f l = l := by
  induction l with
  | nil => rfl
  | cons x xs ih =>
    rw [List.find?_eq_none] at h
    have hx : ¬ p x = true := h x (List.mem_cons_self x xs)
    have hxs : xs.find? p = none := by
      rw [List.find?_eq_none]
      exact fun y hy => h y (List.mem_cons_of_mem x hy)
    simp [updateFirst, hx, ih hxs]

theorem updateFirst_append_singleton (p : α → Bool) (f : α → α) (l : List α) (x : α)
    (h : l.find? p = none) (hx : p x = true) :
    updateFirst p f (l ++ [x]) = l ++ [f x] := by
  induction l with
  | nil => simp [updateFirst, hx]
  | cons y ys ih =>
    rw [List.find?_eq_none] at h
    have hy : ¬ p y = true := h y (List.mem_cons_self y ys)
    have hys : ys.find? p = none := by
      rw [List.find?_eq_none]
      exact fun z hz => h z (List.mem_cons_of_mem y hz)
    simp [updateFirst, hy, ih hys]

theorem updateFirst_map_patchId (q : String) (a : AugmentedPatch)
    (ha : a.toPatch.id = q) (l : List CacheEntry)
    (hc : ∀ e ∈ l, jsIncludes e.val.toPatch.id q = true → e.val.toPatch.id = q) :
    (updateFirst (fun e => jsIncludes e.val.toPatch.id q)
        (fun e => ⟨e.ref, a⟩) l).map (fun e => e.val.toPatch.id) =
      l.map (fun e => e.val.toPatch.id) := by
  induction l with
  | nil => rfl
  | cons x xs ih =>
    by_cases hx : jsIncludes x.val.toPatch.id q = true
    · have hxq : x.val.toPatch.id = q := hc x (List.mem_cons_self x xs) hx
      simp [updateFirst, hx, ha, hxq, jsIncludes_self]
    · have ih' := ih (fun e he hq => hc e (List.mem_cons_of_mem x he) hq)
      simp [updateFirst, hx, ih']

theorem refetchPatch_found_eq (s : StoreState) (rid : String) (ts : Int) (p : Patch)
    (e0 : CacheEntry) (hrid : jsTruthyOptStr (some rid) = true)
    (hf : findPatchById s.patches p.id = some e0) :
    refetchPatch s { data := some rid } ts { data := some p } =
      some ({ s with patches := s.patches.map (updateFirst (fun e => jsIncludes e.val.toPatch.id p.id) (fun e => ⟨e.ref, ⟨p, ts⟩⟩)) }, {}) := by
  unfold refetchPatch
  simp [hrid, hf]

theorem refetchPatch_notfound_eq (s : StoreState) (rid : String) (ts : Int) (p : Patch)
    (hrid : jsTruthyOptStr (some rid) = true)
    (hf : findPatchById s.patches p.id = none) :
    refetchPatch s { data := some rid } ts { data := some p } =
      some ({ s with patches := some ((s.patches.getD []) ++ [⟨s.nextRef, ⟨p, ts⟩⟩]), nextRef := s.nextRef + 1 }, {}) := by
  unfold refetchPatch
  simp [hrid, hf]

/-- C4 counterexample: `findPatchById` matches by substring containment, so
fetching a patch whose id `a` is a strict substring of another cached id `xax`
overwrites the `xax` entry instead of the existing `a` entry: starting from a
cache with distinct ids `[xax, a]`, the merge produces ids `[a, a]` — a
duplicate id — refuting the claim at a concrete input. -/
theorem refetchPatch_merge_creates_duplicate_id :
    ((substringTrapStore.patches.getD []).map (fun e => e.val.toPatch.id)).Nodup ∧
    (refetchPatch substringTrapStore { data := some "rad:x" } 5
        { data := some (samplePatch "a") }).map
      (fun st => (st.1.patches.getD []).map (fun e => e.val.toPatch.id)) =
      some ["a", "a"] ∧
    (refetchPatch substringTrapStore { data := some "rad:x" } 5
        { data := some (samplePatch "a") }).map
      (fun st =>
        decide (((st.1.patches.getD []).map (fun e => e.val.toPatch.id)).Nodup)) =
      some false := by
  decide

/-- C4 (amended): `refetchPatch`'s merge is keyed by substring containment via
`findPatchById`, not by id equality: the first cached patch whose id contains
the fetched id is overwritten in place, and the fetched patch is appended only
when no cached id contains it. Provided containment coincides with equality on
the cache at hand (as with the full-length fixed-width ids the backend
returns), the merge overwrites the entry carrying the fetched id in place
(same identity token, cache shape unchanged) when one exists, appends
otherwise, and never creates a duplicate id; and in every case the merge is
idempotent: repeating the call with identical remote data and timestamp
leaves the state exactly unchanged, identity tokens included. -/
theorem refetchPatch_merge_amended :
    ∀ (s : StoreState) (rid : String) (ts : Int) (p : Patch),
      jsTruthyOptStr (some rid) = true →
      (∀ e ∈ s.patches.getD [], jsIncludes e.val.toPatch.id p.id = true →
        e.val.toPatch.id = p.id) →
      ∃ s1,
        refetchPatch s { data := some rid } ts { data := some p } =
            some (s1, ({} : RawResult Unit)) ∧
        refetchPatch s1 { data := some rid } ts { data := some p } =
            some (s1, ({} : RawResult Unit)) ∧
        ((∃ e ∈ s.patches.getD [], e.val.toPatch.id = p.id) →
          (s1.patches.getD []).map CacheEntry.ref =
              (s.patches.getD []).map CacheEntry.ref ∧
          s1.nextRef = s.nextRef ∧
          ∃ e ∈ s.patches.getD [], e.val.toPatch.id = p.id ∧
            (⟨e.ref, ⟨p, ts⟩⟩ : CacheEntry) ∈ s1.patches.getD []) ∧
        ((∀ e ∈ s.patches.getD [], ¬ e.val.toPatch.id = p.id) →
          s1.patches = some ((s.patches.getD []) ++ [⟨s.nextRef, ⟨p, ts⟩⟩])) ∧
        (((s.patches.getD []).map (fun e => e.val.toPatch.id)).Nodup →
          ((s1.patches.getD []).map (fun e => e.val.toPatch.id)).Nodup) := by
  intro s rid ts p hrid hc
  have hpredupd : ∀ x : CacheEntry,
      (fun e : CacheEntry => jsIncludes e.val.toPatch.id p.id) x = true →
      (fun e : CacheEntry => jsIncludes e.val.toPatch.id p.id)
        ((fun e : CacheEntry => (⟨e.ref, ⟨p, ts⟩⟩ : CacheEntry)) x) = true :=
    fun x _ => jsIncludes_self p.id
  cases hf : findPatchById s.patches p.id with
  | some e0 =>
    obtain ⟨l, hp⟩ : ∃ l, s.patches = some l := by
      cases hp : s.patches with
      | none => rw [hp] at hf; exact Option.noConfusion hf
      | some l => exact ⟨l, rfl⟩
    have hfind : l.find? (fun e => jsIncludes e.val.toPatch.id p.id) = some e0 := by
      rw [hp] at hf; exact hf
    have he0mem : e0 ∈ l := List.mem_of_find?_eq_some hfind
    have he0memD : e0 ∈ s.patches.getD [] := by rw [hp]; exact he0mem
    have he0pred := List.find?_some hfind
    have he0id : e0.val.toPatch.id = p.id := hc e0 he0memD he0pred
    have hcl : ∀ e ∈ l, jsIncludes e.val.toPatch.id p.id = true →
        e.val.toPatch.id = p.id := by
      intro e he hq
      exact hc e (by rw [hp]; exact he) hq
    have hfind2 : (updateFirst (fun e => jsIncludes e.val.toPatch.id p.id)
        (fun e => ⟨e.ref, ⟨p, ts⟩⟩) l).find?
          (fun e => jsIncludes e.val.toPatch.id p.id) =
        some ⟨e0.ref, ⟨p, ts⟩⟩ :=
      find?_updateFirst _ _ l e0 hpredupd hfind
    have hidem := updateFirst_idem
      (fun e : CacheEntry => jsIncludes e.val.toPatch.id p.id)
      (fun e : CacheEntry => (⟨e.ref, ⟨p, ts⟩⟩ : CacheEntry)) l hpredupd
      (fun x => rfl)
    refine ⟨{ s with patches := some (updateFirst
        (fun e => jsIncludes e.val.toPatch.id p.id)
        (fun e => ⟨e.ref, ⟨p, ts⟩⟩) l) }, ?_, ?_, ?_, ?_, ?_⟩
    · rw [refetchPatch_found_eq s rid ts p e0 hrid hf, hp]
      rfl
    · have hf2 : findPatchById ({ s with patches := some (updateFirst
          (fun e => jsIncludes e.val.toPatch.id p.id)
          (fun e => ⟨e.ref, ⟨p, ts⟩⟩) l) } : StoreState).patches p.id =
          some ⟨e0.ref, ⟨p, ts⟩⟩ := hfind2
      rw [refetchPatch_found_eq _ rid ts p ⟨e0.ref, ⟨p, ts⟩⟩ hrid hf2]
      simp only [Option.map_some']
      rw [hidem]
    · intro _
      refine ⟨?_, rfl, e0, he0memD, he0id, ?_⟩
      · show (updateFirst _ _ l).map CacheEntry.ref = (s.patches.getD []).map CacheEntry.ref
        rw [hp]
        exact updateFirst_map_ref _ ⟨p, ts⟩ l
      · show (⟨e0.ref, ⟨p, ts⟩⟩ : CacheEntry) ∈ updateFirst _ _ l
        exact List.mem_of_find?_eq_some hfind2
    · intro hall
      exact absurd he0id (hall e0 he0memD)
    · intro hnd
      show ((updateFirst _ _ l).map (fun e => e.val.toPatch.id)).Nodup
      rw [updateFirst_map_patchId p.id ⟨p, ts⟩ rfl l hcl]
      rw [hp] at hnd
      exact hnd
  | none =>
    have hfindl : (s.patches.getD []).find?
        (fun e => jsIncludes e.val.toPatch.id p.id) = none := by
      cases hp : s.patches with
      | none => rfl
      | some l => rw [hp] at hf; exact hf
    have hnotin : ∀ e ∈ s.patches.getD [], ¬ e.val.toPatch.id = p.id := by
      intro e he heq
      have hne := List.find?_eq_none.mp hfindl e he
      rw [heq] at hne
      exact hne (jsIncludes_self p.id)
    have hpx : (fun e : CacheEntry => jsIncludes e.val.toPatch.id p.id)
        (⟨s.nextRef, ⟨p, ts⟩⟩ : CacheEntry) = true := jsIncludes_self p.id
    have hfind2 : findPatchById (some ((s.patches.getD []) ++
          [(⟨s.nextRef, ⟨p, ts⟩⟩ : CacheEntry)])) p.id =
        some ⟨s.nextRef, ⟨p, ts⟩⟩ := by
      show ((s.patches.getD []) ++ [(⟨s.nextRef, ⟨p, ts⟩⟩ : CacheEntry)]).find?
          (fun e => jsIncludes e.val.toPatch.id p.id) = some ⟨s.nextRef, ⟨p, ts⟩⟩
      rw [List.find?_append, hfindl]
      simp [List.find?_cons, jsIncludes_self]
    have happ := updateFirst_append_singleton
      (fun e : CacheEntry => jsIncludes e.val.toPatch.id p.id)
      (fun e : CacheEntry => (⟨e.ref, ⟨p, ts⟩⟩ : CacheEntry))
      (s.patches.getD []) ⟨s.nextRef, ⟨p, ts⟩⟩ hfindl hpx
    refine ⟨{ s with
        patches := some ((s.patches.getD []) ++ [⟨s.nextRef, ⟨p, ts⟩⟩]),
        nextRef := s.nextRef + 1 }, ?_, ?_, ?_, fun _ => rfl, ?_⟩
    · exact refetchPatch_notfound_eq s rid ts p hrid hf
    · have hf2 : findPatchById ({ s with
          patches := some ((s.patches.getD []) ++ [⟨s.nextRef, ⟨p, ts⟩⟩]),
          nextRef := s.nextRef + 1 } : StoreState).patches p.id =
          some ⟨s.nextRef, ⟨p, ts⟩⟩ := hfind2
      rw [refetchPatch_found_eq _ rid ts p ⟨s.nextRef, ⟨p, ts⟩⟩ hrid hf2]
      simp only [Option.map_some']
      rw [happ]
    · intro hexist
      obtain ⟨e, he, heq⟩ := hexist
      exact absurd heq (hnotin e he)
    · intro hnd
      show (((s.patches.getD []) ++ [(⟨s.nextRef, ⟨p, ts⟩⟩ : CacheEntry)]).map
          (fun e => e.val.toPatch.id)).Nodup
      rw [List.map_append]
      refine List.Nodup.append hnd (List.nodup_singleton _) ?_
      intro a ha hb
      simp only [List.map_cons, List.map_nil, List.mem_singleton] at hb
      subst hb
      obtain ⟨e, he, heq⟩ := List.mem_map.mp ha
      exact hnotin e he heq

/-- C4 witness: the amended merge statement instantiated on a one-entry cache
whose id equals the fetched id exactly. -/
theorem refetchPatch_merge_amended_witness :
    jsTruthyOptStr (some "rad:x") = true ∧
    (∀ e ∈ (({ patches := some [sampleEntry 0 "aaaa"], nextRef := 1 } :
          StoreState).patches.getD []),
      jsIncludes e.val.toPatch.id (samplePatch "aaaa").id = true →
        e.val.toPatch.id = (samplePatch "aaaa").id) ∧
    ∃ s1,
      refetchPatch { patches := some [sampleEntry 0 "aaaa"], nextRef := 1 }
          { data := some "rad:x" } 5 { data := some (samplePatch "aaaa") } =
          some (s1, ({} : RawResult Unit)) ∧
      refetchPatch s1 { data := some "rad:x" } 5
          { data := some (samplePatch "aaaa") } = some (s1, ({} : RawResult Unit)) :=
  ⟨by decide, by decide,
   match refetchPatch_merge_amended
       { patches := some [sampleEntry 0 "aaaa"], nextRef := 1 }
       "rad:x" 5 (samplePatch "aaaa") (by decide) (by decide) with
   | ⟨s1, h1, h2, _, _, _⟩ => ⟨s1, h1, h2⟩⟩

theorem insertSorted_perm (le : α → α → Bool) (x : α) (l : List α) :
    (insertSorted le x l).Perm (x :: l) := by
  induction l with
  | nil => exact List.Perm.refl _
  | cons y ys ih =>
    by_cases h : le y x = true
    · simp only [insertSorted, h, if_true]
      exact (ih.cons y).trans (List.Perm.swap x y ys)
    · simp only [insertSorted, h, if_false]
      exact List.Perm.refl _

theorem sortByJs_perm (le : α → α → Bool) (l : List α) :
    (sortByJs le l).Perm l := by
  induction l with
  | nil => exact List.Perm.refl _
  | cons x xs ih =>
    exact (insertSorted_perm le x (sortByJs le xs)).trans (ih.cons x)

theorem pairwise_insertSorted (le : α → α → Bool)
    (htrans : ∀ a b c, le a b = true → le b c = true → le a c = true)
    (htotal : ∀ a b, le a b = true ∨ le b a = true) (x : α) (l : List α)
    (h : l.Pairwise (fun a b => le a b = true)) :
    (insertSorted le x l).Pairwise (fun a b => le a b = true) := by
  induction l with
  | nil => simp [insertSorted]
  | cons y ys ih =>
    obtain ⟨hy, hys⟩ := List.pairwise_cons.mp h
    by_cases hyx : le y x = true
    · simp only [insertSorted, hyx, if_true]
      refine List.pairwise_cons.mpr ⟨?_, ih hys⟩
      intro z hz
      rcases List.mem_cons.mp ((insertSorted_perm le x ys).mem_iff.mp hz) with rfl | hz2
      · exact hyx
      · exact hy z hz2
    · have hxy : le x y = true := by
        rcases htotal x y with h1 | h2
        · exact h1
        · exact absurd h2 hyx
      simp only [insertSorted, hyx, if_false]
      refine List.pairwise_cons.mpr ⟨?_, h⟩
      intro z hz
      rcases List.mem_cons.mp hz with rfl | hz2
      · exact hxy
      · exact htrans x y z hxy (hy z hz2)

theorem pairwise_sortByJs (le : α → α → Bool)
    (htrans : ∀ a b c, le a b = true → le b c = true → le a c = true)
    (htotal : ∀ a b, le a b = true ∨ le b a = true) (l : List α) :
    (sortByJs le l).Pairwise (fun a b => le a b = true) := by
  induction l with
  | nil => simp [sortByJs]
  | cons x xs ih => exact pairwise_insertSorted le htrans htotal x (sortByJs le xs) ih

theorem pairwise_head_le (le : α → α → Bool) (hrefl : ∀ a, le a a = true)
    (r : α) (rs : List α) (h : (r :: rs).Pairwise (fun a b => le a b = true)) :
    ∀ x ∈ r :: rs, le r x = true := by
  intro x hx
  rcases List.mem_cons.mp hx with rfl | hx2
  · exact hrefl x
  · exact (List.pairwise_cons.mp h).1 x hx2

theorem pairwise_le_getLastD (le : α → α → Bool) (hrefl : ∀ a, le a a = true) :
    ∀ (r : α) (rs : List α), (r :: rs).Pairwise (fun a b => le a b = true) →
      ∀ x ∈ r :: rs, le x (rs.getLastD r) = true := by
  intro r rs
  induction rs generalizing r with
  | nil =>
    intro _ x hx
    rcases List.mem_cons.mp hx with rfl | h2
    · exact hrefl x
    · simp at h2
  | cons y ys ih =>
    intro h x hx
    obtain ⟨hr, h'⟩ := List.pairwise_cons.mp h
    rcases List.mem_cons.mp hx with rfl | hx2
    · rw [List.getLastD_cons]
      exact hr _ (List.getLastD_mem_cons ys y)
    · rw [List.getLastD_cons]
      exact ih y h' x hx2

/-- C6: for every patch with at least one revision, the edge-revision
computation returns a first revision of minimal timestamp and a latest
revision of maximal timestamp, both members of the patch's revisions,
independently of storage order; for a single-revision patch both are that
revision. -/
theorem edge_revision_selection :
    ∀ p : Patch, p.revisions ≠ [] →
      ∃ fr lr, getFirstAndLatestRevisions p = some (fr, lr) ∧
        fr ∈ p.revisions ∧ lr ∈ p.revisions ∧
        (∀ r ∈ p.revisions, fr.timestamp ≤ r.timestamp) ∧
        (∀ r ∈ p.revisions, r.timestamp ≤ lr.timestamp) ∧
        (∀ r, p.revisions = [r] → fr = r ∧ lr = r) := by
  intro p hne
  have htrans : ∀ a b c : Revision,
      revLe a b = true → revLe b c = true → revLe a c = true := by
    intro a b c hab hbc
    simp only [revLe, decide_eq_true_eq] at hab hbc ⊢
    omega
  have htotal : ∀ a b : Revision, revLe a b = true ∨ revLe b a = true := by
    intro a b
    simp only [revLe, decide_eq_true_eq]
    omega
  have hrefl : ∀ a : Revision, revLe a a = true := by
    intro a
    simp [revLe]
  have hperm := sortByJs_perm revLe p.revisions
  have hsorted := pairwise_sortByJs revLe htrans htotal p.revisions
  cases hs : sortByJs revLe p.revisions with
  | nil =>
    rw [hs] at hperm
    exact absurd (hperm.symm.eq_nil) hne
  | cons r0 rsrt =>
    rw [hs] at hperm hsorted
    refine ⟨r0, rsrt.getLastD r0, ?_, ?_, ?_, ?_, ?_, ?_⟩
    · unfold getFirstAndLatestRevisions
      rw [hs]
    · exact hperm.mem_iff.mp (List.mem_cons_self r0 rsrt)
    · exact hperm.mem_iff.mp (List.getLastD_mem_cons rsrt r0)
    · intro r hr
      have hr' : r ∈ r0 :: rsrt := hperm.mem_iff.mpr hr
      have hle := pairwise_head_le revLe hrefl r0 rsrt hsorted r hr'
      simpa [revLe, decide_eq_true_eq] using hle
    · intro r hr
      have hr' : r ∈ r0 :: rsrt := hperm.mem_iff.mpr hr
      have hle := pairwise_le_getLastD revLe hrefl r0 rsrt hsorted r hr'
      simpa [revLe, decide_eq_true_eq] using hle
    · intro r hrev
      have hone : sortByJs revLe p.revisions = [r] := by rw [hrev]; rfl
      rw [hs] at hone
      cases hone
      exact ⟨rfl, rfl⟩

/-- C6 witness: a concrete patch with revisions timestamped [100, 300, 200]
has first = the timestamp-100 revision and latest = the timestamp-300
revision. -/
theorem edge_revision_selection_witness :
    threeRevisionPatch.revisions ≠ [] ∧
    (∃ fr lr, getFirstAndLatestRevisions threeRevisionPatch = some (fr, lr) ∧
      fr ∈ threeRevisionPatch.revisions ∧ lr ∈ threeRevisionPatch.revisions ∧
      (∀ r ∈ threeRevisionPatch.revisions, fr.timestamp ≤ r.timestamp) ∧
      (∀ r ∈ threeRevisionPatch.revisions, r.timestamp ≤ lr.timestamp) ∧
      (∀ r, threeRevisionPatch.revisions = [r] → fr = r ∧ lr = r)) ∧
    getFirstAndLatestRevisions threeRevisionPatch =
      some (sampleRevision 100 "x", sampleRevision 300 "y") :=
  ⟨by decide,
   edge_revision_selection threeRevisionPatch (by decide),
   by decide⟩

theorem matchPatchHexAux_eq_none (cs : List Char)
    (h : jsIncludesAux patchSeg cs = false) : matchPatchHexAux cs = none := by
  induction cs with
  | nil => rfl
  | cons c rest ih =>
    rw [jsIncludesAux, Bool.or_eq_false_iff] at h
    simp [matchPatchHexAux, h.1, ih h.2]

theorem checkedOutPatchVal_concrete_branch (patches : Option (List CacheEntry)) :
    checkedOutPatchVal patches (some "patch/ab12cd34") =
      findPatchById patches "ab12cd34" := by
  have hex : extractPatchPartialId "patch/ab12cd34" = some "ab12cd34" := by decide
  have hne : ("ab12cd34" == "") = false := by decide
  simp [checkedOutPatchVal, hex, hne]

/-- C8: the `checkedOutPatch` derivation never mutates the `patches` cache (it
only records the previous derived value); an absent branch or a branch with no
`patch/` segment derives `undefined`; and for branch `patch/ab12cd34` with a
cached patch whose id starts with `ab12cd34` the derivation resolves, via
`findPatchById` on the extracted fragment, to a cached patch whose id contains
the fragment — and to exactly that patch when it is the only one containing
the fragment. -/
theorem checked_out_patch_derivation :
    (∀ (s : StoreState) (prevVal : Option CacheEntry) (branch : Option String),
      (checkedOutPatchStep s prevVal branch).1.patches = s.patches) ∧
    (∀ patches : Option (List CacheEntry),
      checkedOutPatchVal patches none = none) ∧
    (∀ (patches : Option (List CacheEntry)) (b : String),
      jsIncludes b "patch/" = false → checkedOutPatchVal patches (some b) = none) ∧
    (∀ patches : Option (List CacheEntry),
      (∃ e ∈ patches.getD [],
        "ab12cd34".toList.isPrefixOf e.val.toPatch.id.toList = true) →
      ∃ e', checkedOutPatchVal patches (some "patch/ab12cd34") = some e' ∧
        jsIncludes e'.val.toPatch.id "ab12cd34" = true ∧ e' ∈ patches.getD []) ∧
    (∀ (patches : Option (List CacheEntry)) (e : CacheEntry), e ∈ patches.getD [] →
      "ab12cd34".toList.isPrefixOf e.val.toPatch.id.toList = true →
      (∀ e2 ∈ patches.getD [], jsIncludes e2.val.toPatch.id "ab12cd34" = true →
        e2 = e) →
      checkedOutPatchVal patches (some "patch/ab12cd34") = some e) := by
  have hfind : ∀ (patches : Option (List CacheEntry)),
      (∃ e ∈ patches.getD [],
        "ab12cd34".toList.isPrefixOf e.val.toPatch.id.toList = true) →
      ∃ e', findPatchById patches "ab12cd34" = some e' ∧
        jsIncludes e'.val.toPatch.id "ab12cd34" = true ∧ e' ∈ patches.getD [] := by
    intro patches h
    obtain ⟨e, he, hpre⟩ := h
    cases patches with
    | none => simp at he
    | some l =>
      have hincl : jsIncludes e.val.toPatch.id "ab12cd34" = true :=
        jsIncludesAux_of_isPrefixOf hpre
      have hsome : (l.find? (fun x => jsIncludes x.val.toPatch.id "ab12cd34")).isSome :=
        List.find?_isSome.mpr ⟨e, he, hincl⟩
      obtain ⟨e', he'⟩ := Option.isSome_iff_exists.mp hsome
      have hp' := List.find?_some he'
      exact ⟨e', he', hp', List.mem_of_find?_eq_some he'⟩
  refine ⟨fun s prevVal branch => rfl, fun patches => rfl, ?_, ?_, ?_⟩
  · intro patches b h
    have h' : jsIncludesAux patchSeg b.toList = false := h
    have h2 : matchPatchHexAux b.data = none := matchPatchHexAux_eq_none b.toList h'
    simp [checkedOutPatchVal, extractPatchPartialId, h2]
  · intro patches h
    rw [checkedOutPatchVal_concrete_branch]
    exact hfind patches h
  · intro patches e he hpre huniq
    rw [checkedOutPatchVal_concrete_branch]
    obtain ⟨e', hfe, hince, hmem⟩ := hfind patches ⟨e, he, hpre⟩
    rw [hfe, huniq e' hmem hince]

/-- C8 witness: a concrete cache holding a patch with id `ab12cd34ef`; the
branch `patch/ab12cd34` resolves to it, a branch without a `patch/` segment
resolves to `undefined`, and the step leaves the cache untouched. -/
theorem checked_out_patch_derivation_witness :
    ((checkedOutPatchStep { patches := some [sampleEntry 0 "ab12cd34ef"] } none
        (some "patch/ab12cd34")).1.patches =
      ({ patches := some [sampleEntry 0 "ab12cd34ef"] } : StoreState).patches) ∧
    jsIncludes "main" "patch/" = false ∧
    checkedOutPatchVal (some [sampleEntry 0 "ab12cd34ef"]) (some "main") = none ∧
    (sampleEntry 0 "ab12cd34ef") ∈
      ((some [sampleEntry 0 "ab12cd34ef"] : Option (List CacheEntry)).getD []) ∧
    checkedOutPatchVal (some [sampleEntry 0 "ab12cd34ef"])
        (some "patch/ab12cd34") = some (sampleEntry 0 "ab12cd34ef") :=
  ⟨checked_out_patch_derivation.1 { patches := some [sampleEntry 0 "ab12cd34ef"] }
      none (some "patch/ab12cd34"),
   by decide,
   checked_out_patch_derivation.2.2.1 (some [sampleEntry 0 "ab12cd34ef"]) "main"
     (by decide),
   by decide,
   checked_out_patch_derivation.2.2.2.2 (some [sampleEntry 0 "ab12cd34ef"])
     (sampleEntry 0 "ab12cd34ef") (by decide) (by decide) (by decide)⟩

theorem charListLe_trans :
    ∀ x y z : List Char, charListLe x y = true → charListLe y z = true →
      charListLe x z = true := by
  intro x
  induction x with
  | nil => intro y z _ _; rfl
  | cons a as ih =>
    intro y z h1 h2
    cases y with
    | nil => simp [charListLe] at h1
    | cons b bs =>
      cases z with
      | nil => simp [charListLe] at h2
      | cons c cs =>
        simp only [charListLe] at h1 h2 ⊢
        by_cases hab : a.toNat = b.toNat
        · rw [if_pos hab] at h1
          by_cases hbc : b.toNat = c.toNat
          · rw [if_pos hbc] at h2
            rw [if_pos (hab.trans hbc)]
            exact ih bs cs h1 h2
          · rw [if_neg hbc] at h2
            have hlt : b.toNat < c.toNat := of_decide_eq_true h2
            rw [if_neg (by omega : ¬ a.toNat = c.toNat)]
            exact decide_eq_true (by omega)
        · rw [if_neg hab] at h1
          have hlt : a.toNat < b.toNat := of_decide_eq_true h1
          by_cases hbc : b.toNat = c.toNat
          · rw [if_neg (by omega : ¬ a.toNat = c.toNat)]
            exact decide_eq_true (by omega)
          · rw [if_neg hbc] at h2
            have hlt2 : b.toNat < c.toNat := of_decide_eq_true h2
            rw [if_neg (by omega : ¬ a.toNat = c.toNat)]
            exact decide_eq_true (by omega)

theorem charListLe_total :
    ∀ x y : List Char, charListLe x y = true ∨ charListLe y x = true := by
  intro x
  induction x with
  | nil => intro y; left; rfl
  | cons a as ih =>
    intro y
    cases y with
    | nil => right; rfl
    | cons b bs =>
      simp only [charListLe]
      by_cases hab : a.toNat = b.toNat
      · rw [if_pos hab, if_pos hab.symm]
        exact ih bs
      · rw [if_neg hab, if_neg (fun h => hab h.symm)]
        rcases Nat.lt_or_ge a.toNat b.toNat with h | h
        · left; exact decide_eq_true h
        · right; exact decide_eq_true (by omega)

theorem markDupAux_map_filename :
    ∀ (l before : List FilechangeNode),
      (markDupAux before l).map (fun n => n.filename) =
        l.map (fun n => n.filename) := by
  intro l
  induction l with
  | nil => intro before; rfl
  | cons n0 after ih =>
    intro before
    simp only [markDupAux, List.map_cons, ih]

theorem markDupAux_spec :
    ∀ (l before : List FilechangeNode), ∀ n ∈ markDupAux before l,
      (n.showPath = true ↔
        2 ≤ (before ++ l).countP (fun m => m.filename == n.filename)) := by
  intro l
  induction l with
  | nil => intro before n hn; simp [markDupAux] at hn
  | cons n0 after ih =>
    intro before n hn
    rcases List.mem_cons.mp hn with rfl | hmem
    · have hpn0 : (fun m : FilechangeNode => m.filename == n0.filename) n0 = true := by
        simp
      have e1 : (before ++ n0 :: after).countP
            (fun m => m.filename == n0.filename) =
          before.countP (fun m => m.filename == n0.filename) +
            after.countP (fun m => m.filename == n0.filename) + 1 := by
        rw [List.countP_append, List.countP_cons]
        simp only [beq_self_eq_true, if_true]
        omega
      have e2 : (before ++ after).countP (fun m => m.filename == n0.filename) =
          before.countP (fun m => m.filename == n0.filename) +
            after.countP (fun m => m.filename == n0.filename) :=
        List.countP_append _ before after
      show ((before ++ after).any (fun m => m.filename == n0.filename) = true ↔ _)
      rw [e1]
      constructor
      · intro hx
        have hpos : 0 < (before ++ after).countP
            (fun m => m.filename == n0.filename) :=
          List.countP_pos_iff.mpr (List.any_eq_true.mp hx)
        rw [e2] at hpos
        omega
      · intro h2
        have hpos : 0 < (before ++ after).countP
            (fun m => m.filename == n0.filename) := by
          rw [e2]
          omega
        exact List.any_eq_true.mpr (List.countP_pos_iff.mp hpos)
    · have hiff := ih (n0 :: before) n hmem
      have e3 : ((n0 :: before) ++ after).countP (fun m => m.filename == n.filename) =
          (before ++ n0 :: after).countP (fun m => m.filename == n.filename) := by
        rw [List.countP_append, List.countP_append, List.countP_cons, List.countP_cons]
        omega
      rw [e3] at hiff
      exact hiff

theorem projection_core (B : List FilechangeNode) :
    (∀ n ∈ sortByJs nodeLe (markDup B),
      (n.showPath = true ↔
        2 ≤ (sortByJs nodeLe (markDup B)).countP
          (fun m => m.filename == n.filename))) ∧
    (sortByJs nodeLe (markDup B)).Pairwise
      (fun n1 n2 => pathLe n1.resolvedPath n2.resolvedPath = true) := by
  constructor
  · intro n hn
    have hperm := sortByJs_perm nodeLe (markDup B)
    have hn' := hperm.mem_iff.mp hn
    have hiff := markDupAux_spec B [] n hn'
    rw [List.nil_append] at hiff
    have h1 : (sortByJs nodeLe (markDup B)).countP (fun m => m.filename == n.filename) =
        (markDup B).countP (fun m => m.filename == n.filename) :=
      hperm.countP_eq _
    have h2 : (markDup B).countP (fun m => m.filename == n.filename) =
        B.countP (fun m => m.filename == n.filename) := by
      have t1 : (markDup B).countP (fun m => m.filename == n.filename) =
          ((markDup B).map (fun x : FilechangeNode => x.filename)).countP
            (fun fn => fn == n.filename) :=
        (List.countP_map (fun fn => fn == n.filename)
          (fun x : FilechangeNode => x.filename) (markDup B)).symm
      have t2 : B.countP (fun m => m.filename == n.filename) =
          (B.map (fun x : FilechangeNode => x.filename)).countP
            (fun fn => fn == n.filename) :=
        (List.countP_map (fun fn => fn == n.filename)
          (fun x : FilechangeNode => x.filename) B).symm
      have t3 : (markDup B).map (fun x : FilechangeNode => x.filename) =
          B.map (fun x : FilechangeNode => x.filename) :=
        markDupAux_map_filename B []
      rw [t1, t3, ← t2]
    rw [h1, h2]
    exact hiff
  · have htrans : ∀ a b c : FilechangeNode,
        nodeLe a b = true → nodeLe b c = true → nodeLe a c = true := by
      intro a b c
      exact charListLe_trans _ _ _
    have htotal : ∀ a b : FilechangeNode, nodeLe a b = true ∨ nodeLe b a = true := by
      intro a b
      exact charListLe_total _ _
    exact pairwise_sortByJs nodeLe htrans htotal (markDup B)

/-- C7: in the projected file-change list of one diff, a node shows its
containing directory iff at least one other node of the same result set has
the same bare filename (the count of nodes carrying that filename is at least
two) — computed as a pass over the full result set — and the final list is
ordered lexicographically by full resolved path. -/
theorem filechange_projection_spec :
    ∀ (added deleted modified : List String) (copied moved : List (String × String)),
      (∀ n ∈ projectFilechangeNodes added deleted modified copied moved,
        (n.showPath = true ↔
          2 ≤ (projectFilechangeNodes added deleted modified copied moved).countP
            (fun m => m.filename == n.filename))) ∧
      (projectFilechangeNodes added deleted modified copied moved).Pairwise
        (fun n1 n2 => pathLe n1.resolvedPath n2.resolvedPath = true) := by
  intro added deleted modified copied moved
  exact projection_core (mkFilechangeNodesBase added deleted modified copied moved)

/-- C7 witness: changed files `src/a.ts` and `lib/a.ts` in one diff make both
nodes show their directory, with `lib/a.ts` sorted first; a lone `src/a.ts`
does not show its directory. -/
theorem filechange_projection_spec_witness :
    (⟨"lib/a.ts", "a.ts", true⟩ : FilechangeNode) ∈
      projectFilechangeNodes [] [] ["src/a.ts", "lib/a.ts"] [] [] ∧
    ((⟨"lib/a.ts", "a.ts", true⟩ : FilechangeNode).showPath = true ↔
      2 ≤ (projectFilechangeNodes [] [] ["src/a.ts", "lib/a.ts"] [] []).countP
        (fun m => m.filename == (⟨"lib/a.ts", "a.ts", true⟩ : FilechangeNode).filename)) ∧
    projectFilechangeNodes [] [] ["src/a.ts", "lib/a.ts"] [] [] =
      [⟨"lib/a.ts", "a.ts", true⟩, ⟨"src/a.ts", "a.ts", true⟩] ∧
    projectFilechangeNodes [] [] ["src/a.ts"] [] [] =
      [⟨"src/a.ts", "a.ts", false⟩] :=
  ⟨by decide,
   (filechange_projection_spec [] [] ["src/a.ts", "lib/a.ts"] [] []).1 _ (by decide),
   by decide,
   by decide⟩
